import Mathlib

/-!
Verification of the clusterpolate repository (clusterpolate.py, heatmap.py).

The Python source is shallowly embedded: Python floats are modelled by real
numbers, numpy arrays by lists, dictionaries (for gradient stops) by sorted
association lists, and fallible functions by `Except String`.  The
fixed-radius nearest-neighbor backend (sklearn) and the PIL raster buffer
are external collaborators of the library; they are modelled by their
documented behavior (a radius query returns the distances and indices of
all points within the query radius, inclusive; a raster image made from a
rows-by-columns array has width = columns and height = rows).
-/

namespace Clusterpolate

/-- Euclidean distance between two 2-D points, as computed by the
fixed-radius neighbor search over the data points. -/
noncomputable def euclDist (p t : ℝ × ℝ) : ℝ :=
  Real.sqrt ((p.1 - t.1) ^ 2 + (p.2 - t.2) ^ 2)

/-- Embedding of `bump(r)` from clusterpolate.py (lines 60-78): the returned
kernel maps a distance `dist < r` to `exp(1) * exp(-1 / (1 - (1/r)**2 * dist**2))`
and any other distance to `0` (the result array starts as zeros and only the
entries with `dist < r` are overwritten). -/
noncomputable def bump (r : ℝ) (dist : ℝ) : ℝ :=
  if dist < r then Real.exp 1 * Real.exp (-1 / (1 - (1 / r) ^ 2 * dist ^ 2)) else 0

/-- Embedding of the fixed-radius neighbor query
`neighbors.radius_neighbors(targets)` for a single target (clusterpolate.py
lines 116-121).  The sklearn backend is an external collaborator; per its
contract the query returns, for the target, the distance and index of every
data point whose Euclidean distance to the target is at most `radius`. -/
noncomputable def radius_neighbors (points : List (ℝ × ℝ)) (radius : ℝ)
    (t : ℝ × ℝ) : List (ℝ × ℕ) :=
  ((List.range points.length).map
      (fun j => (euclDist (points.getD j (0, 0)) t, j))).filter
    (fun dn => dn.1 ≤ radius)

/-- Embedding of the per-target loop body of `clusterpolate`
(clusterpolate.py lines 125-131): given the kernel, the value list and the
neighbor query result `(dist, ind)` pairs, compute the prediction and the
membership for one target.  `weights = kernel(dist)`; if `sum(weights) > 0`
the prediction is `sum(weights * values[ind]) / sum(weights)` and the
membership is `weights.max()` (the list is necessarily nonempty in that
branch, so the `unbot' 0` default is never used); otherwise both entries
keep their initial value `0`. -/
noncomputable def targetResult (kernel : ℝ → ℝ) (values : List ℝ)
    (neigh : List (ℝ × ℕ)) : ℝ × ℝ :=
  let weights := neigh.map (fun dn => kernel dn.1)
  if 0 < weights.sum then
    ((neigh.map (fun dn => kernel dn.1 * values.getD dn.2 0)).sum / weights.sum,
      WithBot.unbot' 0 weights.maximum)
  else (0, 0)

/-- Embedding of `clusterpolate(points, values, targets, radius,
kernel_factory)` (clusterpolate.py lines 81-132).  A mismatch between the
number of points and the number of values raises `ValueError`; otherwise
each target is processed independently by `targetResult` and the two result
arrays are returned in target order. -/
noncomputable def clusterpolate (points : List (ℝ × ℝ)) (values : List ℝ)
    (targets : List (ℝ × ℝ)) (radius : ℝ) (kernel_factory : ℝ → ℝ → ℝ) :
    Except String (List ℝ × List ℝ) :=
  if points.length ≠ values.length then
    Except.error "The numbers of points and values must match."
  else
    Except.ok
      (targets.map (fun t =>
        (targetResult (kernel_factory radius) values
          (radius_neighbors points radius t)).1),
       targets.map (fun t =>
        (targetResult (kernel_factory radius) values
          (radius_neighbors points radius t)).2))

/-- The list of kernel weights of the neighbors of a target, with the
default bump kernel. -/
noncomputable def neighborWeights (points : List (ℝ × ℝ)) (radius : ℝ)
    (t : ℝ × ℝ) : List ℝ :=
  (radius_neighbors points radius t).map (fun dn => bump radius dn.1)

/-- The sum of kernel weights of the neighbors of a target. -/
noncomputable def weightSum (points : List (ℝ × ℝ)) (radius : ℝ)
    (t : ℝ × ℝ) : ℝ :=
  (neighborWeights points radius t).sum

/-- The sum of weight-times-value over the neighbors of a target. -/
noncomputable def weightedValueSum (points : List (ℝ × ℝ)) (values : List ℝ)
    (radius : ℝ) (t : ℝ × ℝ) : ℝ :=
  ((radius_neighbors points radius t).map
    (fun dn => bump radius dn.1 * values.getD dn.2 0)).sum

/-- Embedding of `np.linspace(a, b, num)`: `num` evenly spaced samples from
`a` to `b`, both endpoints included (for `num = 1` the single sample is
`a`). -/
noncomputable def linspace (a b : ℝ) (num : ℕ) : List ℝ :=
  if num = 1 then [a]
  else (List.range num).map (fun i => a + (b - a) * i / ((num : ℝ) - 1))

/-- Embedding of the target-grid construction of `image` (clusterpolate.py
lines 173-175): `np.vstack(np.meshgrid(x, y)).reshape(2, -1).T` produces,
for `x` of length `size[0]` and `y` of length `size[1]`, the flat list of
pairs `(x_i, y_j)`, iterating over `y` in the outer loop — a 2-D array of
shape `(size[0]*size[1], 2)`. -/
noncomputable def gridTargets (size : ℕ × ℕ) (area : (ℝ × ℝ) × (ℝ × ℝ)) :
    List (ℝ × ℝ) :=
  ((linspace area.1.2 area.2.2 size.2).map (fun yv =>
    (linspace area.1.1 area.2.1 size.1).map (fun xv => (xv, yv)))).flatten

/-- Embedding of `np.reshape` of a flat float array into a `rows` by `cols`
row-major 2-D array.  Only used after the length check `rows * cols =
l.length`, mirroring numpy raising on a size mismatch, so the `getD`
default is never reached. -/
def reshape2 (l : List ℝ) (rows cols : ℕ) : List (List ℝ) :=
  (List.range rows).map (fun r =>
    (List.range cols).map (fun c => l.getD (r * cols + c) 0))

/-- Result of the grid renderer `image`: the (flat) target array, the
reshaped normalized prediction grid, the reshaped membership grid, and the
pixel dimensions of the produced PIL image.  The image itself is an
external raster object; only its dimensions are modelled: a PIL image built
with `fromarray` from a `rows x cols` float array has width `cols` and
height `rows`, and `merge` keeps the common band size. -/
structure ImageResult where
  targets : List (ℝ × ℝ)
  predictions : List (List ℝ)
  memberships : List (List ℝ)
  imageWidth : ℕ
  imageHeight : ℕ

/-- Embedding of `image(points, values, size, area, normalize=True,
colormap=None)` (clusterpolate.py lines 135-195) for an explicitly supplied
sampling area, with the default bump kernel.  The grid of targets is built
over `area`, `clusterpolate` is delegated to, the two flat result arrays
are reshaped to `(size[0], size[1])` (numpy raises when the total size
differs, and `predictions.min()` raises on an empty array), predictions are
min-max normalized, and the grayscale `'LA'` image is assembled from the
`size[0] x size[1]` pixel arrays, giving a PIL image of width `size[1]` and
height `size[0]`.  The byte-level `uint8` color conversion happens in the
external raster library and is not part of the model; real division is used
for normalization, so the degenerate constant-prediction grid (a numpy
`nan`, not an exception) is idealized as `0`. -/
noncomputable def image (points : List (ℝ × ℝ)) (values : List ℝ)
    (size : ℕ × ℕ) (area : (ℝ × ℝ) × (ℝ × ℝ)) (radius : ℝ) :
    Except String ImageResult :=
  (clusterpolate points values (gridTargets size area) radius bump).bind
    (fun pm =>
      if pm.1.length = size.1 * size.2 ∧ pm.2.length = size.1 * size.2 then
        if pm.1.length = 0 then
          Except.error "zero-size array to reduction operation minimum"
        else
          let pgrid := reshape2 pm.1 size.1 size.2
          let pmin := WithTop.untop' 0 pgrid.flatten.minimum
          let pmax := WithBot.unbot' 0 pgrid.flatten.maximum
          Except.ok
            { targets := gridTargets size area
              predictions := pgrid.map (fun row =>
                row.map (fun p => (p - pmin) / (pmax - pmin)))
              memberships := reshape2 pm.2 size.1 size.2
              imageWidth := size.2
              imageHeight := size.1 }
      else Except.error "total size of new array must be unchanged")

end Clusterpolate

namespace Heatmap

/-- Embedding of `interpolate(t1, t2, x)` from heatmap.py (lines 161-172):
componentwise linear interpolation `x * t2[i] + (1 - x) * t1[i]` over the
indices of `t1`.  The function is only ever used on equal-length tuples
(the gradient stop contract); `getD` stands in for Python's partial
indexing. -/
def interpolate (t1 t2 : List ℚ) (x : ℚ) : List ℚ :=
  (List.range t1.length).map (fun i => x * t2.getD i 0 + (1 - x) * t1.getD i 0)

/-- The scanning loop of the function returned by `gradient` (heatmap.py
lines 206-211): `prev` is the stop preceding the current scan position; on
the first stop whose key is at least `v` the bracketing pair is
interpolated, and if the scan runs out the last stop's color is returned. -/
def colorizeGo (v : ℚ) (prev : ℚ × List ℚ) :
    List (ℚ × List ℚ) → List ℚ
  | [] => prev.2
  | s :: rest =>
      if v ≤ s.1 then
        interpolate prev.2 s.2 ((v - prev.1) / (s.1 - prev.1))
      else colorizeGo v s rest

/-- Embedding of the `colorize` closure returned by `gradient` (heatmap.py
lines 203-211), over the sorted association list of the stop dictionary:
values at most the smallest key are clamped to the first stop's color;
otherwise the list is scanned for the bracketing pair. -/
def colorize (stops : List (ℚ × List ℚ)) (v : ℚ) : List ℚ :=
  match stops with
  | [] => []
  | s0 :: rest => if v ≤ s0.1 then s0.2 else colorizeGo v s0 rest

/-- Embedding of `gradient(stops)` (heatmap.py lines 175-213).  The stop
dictionary is modelled by its sorted association list (`sorted
(stops.items())`), which has strictly increasing keys; an empty stop map
raises `ValueError`. -/
def gradient (stops : List (ℚ × List ℚ)) :
    Except String (ℚ → List ℚ) :=
  if stops = [] then Except.error "You must specify at least one stop."
  else Except.ok (colorize stops)

/-- The example stop map of the spec and the `gradient` docstring:
`{0.0: (255, 0, 0), 0.5: (0, 255, 0), 1.0: (0, 0, 255)}`, as its sorted
association list. -/
def exampleStops : List (ℚ × List ℚ) :=
  [(0, [255, 0, 0]), (1 / 2, [0, 255, 0]), (1, [0, 0, 255])]

/-- A single-band float raster image: width, height, and the pixel buffer.
PIL raster storage is an external collaborator; the buffer is modelled as a
total function on integer coordinates, meaningful on
`[0, width) x [0, height)` (the accumulation code only ever touches that
region). -/
structure ImgF where
  width : ℕ
  height : ℕ
  pix : ℤ → ℤ → ℝ

/-- Python `int()` truncation of a float toward zero, as applied to the
translation vector in `_add_image`. -/
noncomputable def truncToward0 (x : ℝ) : ℤ :=
  if 0 ≤ x then ⌊x⌋ else ⌈x⌉

/-- Embedding of `_add_image(img1, img2, p, factor)` (heatmap.py lines
74-94): the data of `img2`, translated by the `int`-truncated `p` and
multiplied by `factor`, is added pixelwise into `img1` over the clipped
overlap region `[max(0, p0), min(img1.w, img2.w + p0)) x [max(0, p1),
min(img1.h, img2.h + p1))`; pixels outside that region are unchanged. -/
noncomputable def add_image (img1 img2 : ImgF) (p : ℝ × ℝ) (factor : ℝ) :
    ImgF :=
  let p0 := truncToward0 p.1
  let p1 := truncToward0 p.2
  let start_x := max 0 p0
  let stop_x := min (img1.width : ℤ) ((img2.width : ℤ) + p0)
  let start_y := max 0 p1
  let stop_y := min (img1.height : ℤ) ((img2.height : ℤ) + p1)
  { img1 with
      pix := fun x y =>
        if start_x ≤ x ∧ x < stop_x ∧ start_y ≤ y ∧ y < stop_y then
          img1.pix x y + factor * img2.pix (x - p0) (y - p1)
        else img1.pix x y }

/-- Embedding of the accumulation phase of `heatmap(points, area, size,
radius, default_intensity)` (heatmap.py lines 132-151), for an explicitly
supplied area.  A point is `(x, y)` with an optional third intensity entry
defaulting to `default_intensity`.  The Gaussian stamp `_gauss(rx, ry)` is
built through the external raster library; it is abstracted as the
parameter `stampOf`, so every statement about this model holds in
particular for the actual Gaussian stamp.  The optional colorize pass
(lines 152-157) maps the finished buffer through a color function and does
not touch the accumulation itself. -/
noncomputable def heatmap (stampOf : ℤ → ℤ → ImgF)
    (points : List (ℝ × ℝ × Option ℝ)) (area : (ℝ × ℝ) × (ℝ × ℝ))
    (size : ℕ × ℕ) (radius : ℝ) (default_intensity : ℝ) : ImgF :=
  let width_factor := (size.1 : ℝ) / (area.2.1 - area.1.1)
  let height_factor := (size.2 : ℝ) / (area.2.2 - area.1.2)
  let rx := truncToward0 (radius * width_factor)
  let ry := truncToward0 (radius * height_factor)
  let kernel := stampOf rx ry
  points.foldl
    (fun img point =>
      let intensity := point.2.2.getD default_intensity
      let x := (point.1 - area.1.1) * width_factor
      let y := (point.2.1 - area.1.2) * height_factor
      add_image img kernel (x - (rx : ℝ) - 1, y - (ry : ℝ) - 1) intensity)
    ⟨size.1, size.2, fun _ _ => 0⟩

/-- Embedding of `bounding_box(points)` from heatmap.py (lines 216-237):
a fold starting from `left = top = inf` and `right = bottom = -inf`,
updating each bound by comparison.  The IEEE infinities are modelled by
`⊤` and `⊥` of `EReal`, which compare with coerced reals exactly as the
infinite floats do with finite floats. -/
noncomputable def bounding_box (points : List (ℝ × ℝ)) :
    (EReal × EReal) × (EReal × EReal) :=
  points.foldl
    (fun acc point =>
      ((if (point.1 : EReal) < acc.1.1 then (point.1 : EReal) else acc.1.1,
        if (point.2 : EReal) < acc.1.2 then (point.2 : EReal) else acc.1.2),
       (if (point.1 : EReal) > acc.2.1 then (point.1 : EReal) else acc.2.1,
        if (point.2 : EReal) > acc.2.2 then (point.2 : EReal) else acc.2.2)))
    ((⊤, ⊤), (⊥, ⊥))

end Heatmap

namespace Clusterpolate

theorem bump_nonneg (r d : ℝ) : 0 ≤ bump r d := by
  unfold bump
  split
  · positivity
  · exact le_refl 0

theorem bump_pos (r d : ℝ) (h : d < r) : 0 < bump r d := by
  unfold bump
  rw [if_pos h]
  positivity

theorem bump_eq_zero_of_le (r d : ℝ) (h : r ≤ d) : bump r d = 0 := by
  unfold bump
  exact if_neg (not_lt.mpr h)

theorem bump_le_one (r d : ℝ) (hr : 0 < r) (hd : 0 ≤ d) : bump r d ≤ 1 := by
  unfold bump
  split
  · rename_i h
    have hrr : (0 : ℝ) < r ^ 2 := by positivity
    have hd2 : d ^ 2 < r ^ 2 := by
      have := mul_self_lt_mul_self hd h
      simpa [pow_two] using this
    have hu : (1 / r) ^ 2 * d ^ 2 = d ^ 2 / r ^ 2 := by ring
    have hu1 : (1 / r) ^ 2 * d ^ 2 < 1 := by
      rw [hu, div_lt_one hrr]
      exact hd2
    have hu0 : 0 ≤ (1 / r) ^ 2 * d ^ 2 := by positivity
    have hpos : 0 < 1 - (1 / r) ^ 2 * d ^ 2 := by linarith
    have hle : 1 - (1 / r) ^ 2 * d ^ 2 ≤ 1 := by linarith
    have h1 : 1 ≤ 1 / (1 - (1 / r) ^ 2 * d ^ 2) := by
      rw [le_div_iff₀ hpos]
      linarith
    have h2 : -1 / (1 - (1 / r) ^ 2 * d ^ 2) ≤ -1 := by
      have : -(1 / (1 - (1 / r) ^ 2 * d ^ 2)) ≤ -1 := neg_le_neg h1
      simpa [neg_div] using this
    have h3 : Real.exp (-1 / (1 - (1 / r) ^ 2 * d ^ 2)) ≤ Real.exp (-1) :=
      Real.exp_le_exp.mpr h2
    calc Real.exp 1 * Real.exp (-1 / (1 - (1 / r) ^ 2 * d ^ 2))
        ≤ Real.exp 1 * Real.exp (-1) :=
          mul_le_mul_of_nonneg_left h3 (le_of_lt (Real.exp_pos 1))
      _ = 1 := by rw [← Real.exp_add]; simp
  · exact zero_le_one

/-- Characterization of the modelled neighbor query result. -/
theorem mem_radius_neighbors_iff (points : List (ℝ × ℝ)) (radius : ℝ)
    (t : ℝ × ℝ) (dn : ℝ × ℕ) :
    dn ∈ radius_neighbors points radius t ↔
      dn.2 < points.length ∧ dn.1 = euclDist (points.getD dn.2 (0, 0)) t ∧
        dn.1 ≤ radius := by
  unfold radius_neighbors
  simp only [List.mem_filter, List.mem_map, List.mem_range,
    decide_eq_true_eq]
  constructor
  · rintro ⟨⟨j, hj, rfl⟩, hle⟩
    exact ⟨hj, rfl, hle⟩
  · rintro ⟨hj, heq, hle⟩
    exact ⟨⟨dn.2, hj, by rw [← heq]⟩, hle⟩

theorem euclDist_nonneg (p t : ℝ × ℝ) : 0 ≤ euclDist p t :=
  Real.sqrt_nonneg _

/-- Every weight in the neighbor weight list is nonnegative. -/
theorem neighborWeights_nonneg (points : List (ℝ × ℝ)) (radius : ℝ)
    (t : ℝ × ℝ) : ∀ w ∈ neighborWeights points radius t, 0 ≤ w := by
  intro w hw
  unfold neighborWeights at hw
  obtain ⟨dn, _, rfl⟩ := List.mem_map.mp hw
  exact bump_nonneg radius dn.1

/-- On length-matched input `clusterpolate` succeeds and returns the
per-target results in target order. -/
theorem clusterpolate_ok (points : List (ℝ × ℝ)) (values : List ℝ)
    (targets : List (ℝ × ℝ)) (radius : ℝ) (kernel_factory : ℝ → ℝ → ℝ)
    (h : points.length = values.length) :
    clusterpolate points values targets radius kernel_factory =
      Except.ok
        (targets.map (fun t =>
          (targetResult (kernel_factory radius) values
            (radius_neighbors points radius t)).1),
         targets.map (fun t =>
          (targetResult (kernel_factory radius) values
            (radius_neighbors points radius t)).2)) := by
  unfold clusterpolate
  rw [if_neg (by omega)]

/-- Branch analysis of `targetResult`. -/
theorem targetResult_spec (kernel : ℝ → ℝ) (values : List ℝ)
    (neigh : List (ℝ × ℕ)) :
    (0 < (neigh.map (fun dn => kernel dn.1)).sum ∧
      targetResult kernel values neigh =
        ((neigh.map (fun dn => kernel dn.1 * values.getD dn.2 0)).sum /
            (neigh.map (fun dn => kernel dn.1)).sum,
          WithBot.unbot' 0 (neigh.map (fun dn => kernel dn.1)).maximum)) ∨
    (¬ 0 < (neigh.map (fun dn => kernel dn.1)).sum ∧
      targetResult kernel values neigh = (0, 0)) := by
  unfold targetResult
  by_cases h : 0 < (neigh.map (fun dn => kernel dn.1)).sum
  · exact Or.inl ⟨h, by simp only [if_pos h]⟩
  · exact Or.inr ⟨h, by simp only [if_neg h]⟩

/-- Reading off one entry of a mapped result list. -/
theorem getD_map_get {α : Type} (l : List α) (f : α → ℝ) (i : ℕ)
    (hi : i < l.length) : (l.map f).getD i 0 = f (l.get ⟨i, hi⟩) := by
  rw [List.getD_eq_getElem (l.map f) 0 (by simpa using hi)]
  simp

/-- C1: for every well-formed input (`len(points) == len(values)`) and every
target, `clusterpolate` (with the default bump kernel) computes the result
for that target as follows: if the sum of kernel weights over the neighbors
within radius is positive, the prediction is `(sum of weight*value) / (sum
of weights)` and the membership is the maximum neighbor weight (an element
of the weight list that dominates every element); if the sum of weights is
`0` (including the zero-neighbor case), the prediction is `0` and the
membership is `0`. -/
theorem C1_clusterpolate_per_target (points : List (ℝ × ℝ)) (values : List ℝ)
    (targets : List (ℝ × ℝ)) (radius : ℝ)
    (h : points.length = values.length) :
    ∃ preds mems : List ℝ,
      clusterpolate points values targets radius bump =
          Except.ok (preds, mems) ∧
      preds.length = targets.length ∧ mems.length = targets.length ∧
      ∀ i : ℕ, ∀ hi : i < targets.length,
        (0 < weightSum points radius (targets.get ⟨i, hi⟩) ∧
          preds.getD i 0 =
            weightedValueSum points values radius (targets.get ⟨i, hi⟩) /
              weightSum points radius (targets.get ⟨i, hi⟩) ∧
          mems.getD i 0 ∈ neighborWeights points radius (targets.get ⟨i, hi⟩) ∧
          ∀ w ∈ neighborWeights points radius (targets.get ⟨i, hi⟩),
            w ≤ mems.getD i 0) ∨
        (weightSum points radius (targets.get ⟨i, hi⟩) = 0 ∧
          preds.getD i 0 = 0 ∧ mems.getD i 0 = 0) := by
  refine ⟨_, _, clusterpolate_ok points values targets radius bump h,
    by simp, by simp, ?_⟩
  intro i hi
  set t := targets.get ⟨i, hi⟩ with ht
  have hp : (targets.map (fun t =>
      (targetResult (bump radius) values
        (radius_neighbors points radius t)).1)).getD i 0 =
      (targetResult (bump radius) values (radius_neighbors points radius t)).1 :=
    getD_map_get targets _ i hi
  have hm : (targets.map (fun t =>
      (targetResult (bump radius) values
        (radius_neighbors points radius t)).2)).getD i 0 =
      (targetResult (bump radius) values (radius_neighbors points radius t)).2 :=
    getD_map_get targets _ i hi
  rw [hp, hm]
  have hws : weightSum points radius t =
      ((radius_neighbors points radius t).map
        (fun dn => bump radius dn.1)).sum := rfl
  have hnonneg : 0 ≤ weightSum points radius t :=
    List.sum_nonneg (neighborWeights_nonneg points radius t)
  rcases targetResult_spec (bump radius) values
      (radius_neighbors points radius t) with ⟨hpos, heq⟩ | ⟨hneg, heq⟩
  · left
    rw [heq]
    have hne : neighborWeights points radius t ≠ [] := by
      intro hnil
      rw [hws.symm] at hpos
      unfold neighborWeights at hnil
      rw [hws, hnil] at hpos
      simp at hpos
    obtain ⟨m, hm2⟩ := WithBot.ne_bot_iff_exists.mp
      (List.maximum_ne_bot_of_ne_nil hne)
    have hmax := List.maximum_eq_coe_iff.mp hm2.symm
    refine ⟨by rw [hws]; exact hpos, rfl, ?_, ?_⟩
    · show WithBot.unbot' 0 (neighborWeights points radius t).maximum ∈ _
      rw [← hm2, WithBot.unbot'_coe]
      exact hmax.1
    · intro w hw
      show w ≤ WithBot.unbot' 0 (neighborWeights points radius t).maximum
      rw [← hm2, WithBot.unbot'_coe]
      exact hmax.2 w hw
  · right
    rw [heq]
    have hzero : weightSum points radius t = 0 := by
      refine le_antisymm ?_ hnonneg
      rw [hws]
      exact not_lt.mp hneg
    exact ⟨hzero, rfl, rfl⟩

/-- C1 witness: one data point carrying value 3, queried at the data point
itself. -/
theorem C1_clusterpolate_per_target_witness :
    ∃ preds mems : List ℝ,
      clusterpolate [((0 : ℝ), (0 : ℝ))] [(3 : ℝ)] [((0 : ℝ), (0 : ℝ))] 1
          bump = Except.ok (preds, mems) ∧
      preds.length = [((0 : ℝ), (0 : ℝ))].length ∧
      mems.length = [((0 : ℝ), (0 : ℝ))].length ∧
      ∀ i : ℕ, ∀ hi : i < [((0 : ℝ), (0 : ℝ))].length,
        (0 < weightSum [(0, 0)] 1 ([((0 : ℝ), (0 : ℝ))].get ⟨i, hi⟩) ∧
          preds.getD i 0 =
            weightedValueSum [(0, 0)] [3] 1
                ([((0 : ℝ), (0 : ℝ))].get ⟨i, hi⟩) /
              weightSum [(0, 0)] 1 ([((0 : ℝ), (0 : ℝ))].get ⟨i, hi⟩) ∧
          mems.getD i 0 ∈
            neighborWeights [(0, 0)] 1 ([((0 : ℝ), (0 : ℝ))].get ⟨i, hi⟩) ∧
          ∀ w ∈ neighborWeights [(0, 0)] 1 ([((0 : ℝ), (0 : ℝ))].get ⟨i, hi⟩),
            w ≤ mems.getD i 0) ∨
        (weightSum [(0, 0)] 1 ([((0 : ℝ), (0 : ℝ))].get ⟨i, hi⟩) = 0 ∧
          preds.getD i 0 = 0 ∧ mems.getD i 0 = 0) :=
  C1_clusterpolate_per_target [(0, 0)] [3] [(0, 0)] 1 (by simp)

/-- The value carried by a neighbor is one of the input values. -/
theorem neighbor_value_mem (points : List (ℝ × ℝ)) (values : List ℝ)
    (radius : ℝ) (t : ℝ × ℝ) (dn : ℝ × ℕ)
    (h : points.length = values.length)
    (hdn : dn ∈ radius_neighbors points radius t) :
    values.getD dn.2 0 ∈ values := by
  obtain ⟨hj, _, _⟩ := (mem_radius_neighbors_iff points radius t dn).mp hdn
  have hj2 : dn.2 < values.length := by omega
  rw [List.getD_eq_getElem values 0 hj2]
  exact List.getElem_mem hj2

/-- Every neighbor distance is a nonnegative real. -/
theorem neighbor_dist_nonneg (points : List (ℝ × ℝ)) (radius : ℝ)
    (t : ℝ × ℝ) (dn : ℝ × ℕ)
    (hdn : dn ∈ radius_neighbors points radius t) : 0 ≤ dn.1 := by
  obtain ⟨_, heq, _⟩ := (mem_radius_neighbors_iff points radius t dn).mp hdn
  rw [heq]
  exact euclDist_nonneg _ _

/-- C2: for every well-formed input to `clusterpolate` with the default bump
kernel (and a positive radius) and every target, the returned membership lies
in `[0, 1]`, and whenever the membership is positive the returned prediction
lies between any lower bound and any upper bound of the input values (so it
is bounded by `min(values)` and `max(values)`: the prediction is a convex
combination of neighbor values). -/
theorem C2_membership_bounds_and_convexity (points : List (ℝ × ℝ))
    (values : List ℝ) (targets : List (ℝ × ℝ)) (radius : ℝ)
    (h : points.length = values.length) (hr : 0 < radius) :
    ∃ preds mems : List ℝ,
      clusterpolate points values targets radius bump =
          Except.ok (preds, mems) ∧
      ∀ i : ℕ, i < targets.length →
        0 ≤ mems.getD i 0 ∧ mems.getD i 0 ≤ 1 ∧
        (0 < mems.getD i 0 →
          ∀ lo up : ℝ, (∀ v ∈ values, lo ≤ v ∧ v ≤ up) →
            lo ≤ preds.getD i 0 ∧ preds.getD i 0 ≤ up) := by
  refine ⟨_, _, clusterpolate_ok points values targets radius bump h, ?_⟩
  intro i hi
  set t := targets.get ⟨i, hi⟩ with ht
  have hp : (targets.map (fun t =>
      (targetResult (bump radius) values
        (radius_neighbors points radius t)).1)).getD i 0 =
      (targetResult (bump radius) values (radius_neighbors points radius t)).1 :=
    getD_map_get targets _ i hi
  have hm : (targets.map (fun t =>
      (targetResult (bump radius) values
        (radius_neighbors points radius t)).2)).getD i 0 =
      (targetResult (bump radius) values (radius_neighbors points radius t)).2 :=
    getD_map_get targets _ i hi
  rw [hp, hm]
  rcases targetResult_spec (bump radius) values
      (radius_neighbors points radius t) with ⟨hpos, heq⟩ | ⟨_, heq⟩
  · rw [heq]
    have hne : (radius_neighbors points radius t).map
        (fun dn => bump radius dn.1) ≠ [] := by
      intro hnil
      rw [hnil] at hpos
      simp at hpos
    obtain ⟨m, hm2⟩ := WithBot.ne_bot_iff_exists.mp
      (List.maximum_ne_bot_of_ne_nil hne)
    have hmax := List.maximum_eq_coe_iff.mp hm2.symm
    have hmval : WithBot.unbot' 0 ((radius_neighbors points radius t).map
        (fun dn => bump radius dn.1)).maximum = m := by
      rw [← hm2, WithBot.unbot'_coe]
    rw [hmval]
    obtain ⟨dn, hdn, hdnw⟩ := List.mem_map.mp hmax.1
    refine ⟨?_, ?_, ?_⟩
    · rw [← hdnw]
      exact bump_nonneg radius dn.1
    · rw [← hdnw]
      exact bump_le_one radius dn.1 hr
        (neighbor_dist_nonneg points radius t dn hdn)
    · intro _ lo up hbound
      have hlo : lo * ((radius_neighbors points radius t).map
          (fun dn => bump radius dn.1)).sum ≤
          ((radius_neighbors points radius t).map
            (fun dn => bump radius dn.1 * values.getD dn.2 0)).sum := by
        rw [← List.sum_map_mul_left]
        refine List.sum_le_sum ?_
        intro dn hdn2
        have hv := (hbound _ (neighbor_value_mem points values radius t dn
          h hdn2)).1
        have hw := bump_nonneg radius dn.1
        nlinarith
      have hup : ((radius_neighbors points radius t).map
          (fun dn => bump radius dn.1 * values.getD dn.2 0)).sum ≤
          up * ((radius_neighbors points radius t).map
            (fun dn => bump radius dn.1)).sum := by
        rw [← List.sum_map_mul_left]
        refine List.sum_le_sum ?_
        intro dn hdn2
        have hv := (hbound _ (neighbor_value_mem points values radius t dn
          h hdn2)).2
        have hw := bump_nonneg radius dn.1
        nlinarith
      constructor
      · rw [le_div_iff₀ hpos]
        exact hlo
      · rw [div_le_iff₀ hpos]
        exact hup
  · rw [heq]
    exact ⟨le_refl 0, zero_le_one, fun habs => absurd habs (lt_irrefl 0)⟩

/-- C2 witness: one data point with value 3, queried at the data point, with
radius 1. -/
theorem C2_membership_bounds_and_convexity_witness :
    ∃ preds mems : List ℝ,
      clusterpolate [((0 : ℝ), (0 : ℝ))] [(3 : ℝ)] [((0 : ℝ), (0 : ℝ))] 1
          bump = Except.ok (preds, mems) ∧
      ∀ i : ℕ, i < [((0 : ℝ), (0 : ℝ))].length →
        0 ≤ mems.getD i 0 ∧ mems.getD i 0 ≤ 1 ∧
        (0 < mems.getD i 0 →
          ∀ lo up : ℝ, (∀ v ∈ [(3 : ℝ)], lo ≤ v ∧ v ≤ up) →
            lo ≤ preds.getD i 0 ∧ preds.getD i 0 ≤ up) :=
  C2_membership_bounds_and_convexity [(0, 0)] [3] [(0, 0)] 1 (by simp)
    (by norm_num)

/-- C3: for every well-formed input to `clusterpolate` with the default bump
kernel (and a positive radius) and every target, the returned membership is
exactly `0` if and only if no input point lies within `radius` of that
target.  Lying within `radius` is formalized as strict inequality
`dist < radius`: the bump kernel is `0` exactly on distances `>= radius`, so
a point at distance exactly `radius` contributes weight `0` by design. -/
theorem C3_membership_zero_iff_no_neighbor (points : List (ℝ × ℝ))
    (values : List ℝ) (targets : List (ℝ × ℝ)) (radius : ℝ)
    (h : points.length = values.length) (hr : 0 < radius) :
    ∃ preds mems : List ℝ,
      clusterpolate points values targets radius bump =
          Except.ok (preds, mems) ∧
      ∀ i : ℕ, ∀ hi : i < targets.length,
        (mems.getD i 0 = 0 ↔
          ∀ p ∈ points, ¬ euclDist p (targets.get ⟨i, hi⟩) < radius) := by
  refine ⟨_, _, clusterpolate_ok points values targets radius bump h, ?_⟩
  intro i hi
  set t := targets.get ⟨i, hi⟩ with ht
  have hm : (targets.map (fun t =>
      (targetResult (bump radius) values
        (radius_neighbors points radius t)).2)).getD i 0 =
      (targetResult (bump radius) values (radius_neighbors points radius t)).2 :=
    getD_map_get targets _ i hi
  rw [hm]
  constructor
  · intro hzero p hp hclose
    obtain ⟨j, hj, hpj⟩ := List.mem_iff_getElem.mp hp
    have hdn : (euclDist p t, j) ∈ radius_neighbors points radius t := by
      rw [mem_radius_neighbors_iff]
      refine ⟨hj, ?_, le_of_lt hclose⟩
      rw [List.getD_eq_getElem points (0, 0) hj, hpj]
    have hwmem : bump radius (euclDist p t) ∈
        (radius_neighbors points radius t).map (fun dn => bump radius dn.1) :=
      List.mem_map.mpr ⟨(euclDist p t, j), hdn, rfl⟩
    have hwpos : 0 < bump radius (euclDist p t) :=
      bump_pos radius (euclDist p t) hclose
    have hsum : bump radius (euclDist p t) ≤
        ((radius_neighbors points radius t).map
          (fun dn => bump radius dn.1)).sum :=
      List.single_le_sum
        (fun w hw => by
          obtain ⟨dn, _, rfl⟩ := List.mem_map.mp hw
          exact bump_nonneg radius dn.1) _ hwmem
    have hpos : 0 < ((radius_neighbors points radius t).map
        (fun dn => bump radius dn.1)).sum := lt_of_lt_of_le hwpos hsum
    rcases targetResult_spec (bump radius) values
        (radius_neighbors points radius t) with ⟨_, heq⟩ | ⟨hneg, _⟩
    · rw [heq] at hzero
      simp only at hzero
      have hne : (radius_neighbors points radius t).map
          (fun dn => bump radius dn.1) ≠ [] := by
        intro hnil
        rw [hnil] at hpos
        simp at hpos
      obtain ⟨m, hm2⟩ := WithBot.ne_bot_iff_exists.mp
        (List.maximum_ne_bot_of_ne_nil hne)
      have hmax := List.maximum_eq_coe_iff.mp hm2.symm
      rw [← hm2, WithBot.unbot'_coe] at hzero
      have := hmax.2 _ hwmem
      rw [hzero] at this
      exact absurd (lt_of_lt_of_le hwpos this) (lt_irrefl 0)
    · exact absurd hpos hneg
  · intro hfar
    have hzero : ∀ w ∈ (radius_neighbors points radius t).map
        (fun dn => bump radius dn.1), w = 0 := by
      intro w hw
      obtain ⟨dn, hdn, rfl⟩ := List.mem_map.mp hw
      obtain ⟨hj, heqd, _⟩ := (mem_radius_neighbors_iff points radius t
        dn).mp hdn
      have hmem : points.getD dn.2 (0, 0) ∈ points := by
        rw [List.getD_eq_getElem points (0, 0) hj]
        exact List.getElem_mem hj
      have := hfar _ hmem
      rw [← heqd] at this
      exact bump_eq_zero_of_le radius dn.1 (not_lt.mp this)
    have hsum0 : ((radius_neighbors points radius t).map
        (fun dn => bump radius dn.1)).sum = 0 := List.sum_eq_zero hzero
    rcases targetResult_spec (bump radius) values
        (radius_neighbors points radius t) with ⟨hpos, _⟩ | ⟨_, heq⟩
    · rw [hsum0] at hpos
      exact absurd hpos (lt_irrefl 0)
    · rw [heq]

/-- C3 witness: one data point with value 3, queried at the data point, with
radius 1. -/
theorem C3_membership_zero_iff_no_neighbor_witness :
    ∃ preds mems : List ℝ,
      clusterpolate [((0 : ℝ), (0 : ℝ))] [(3 : ℝ)] [((0 : ℝ), (0 : ℝ))] 1
          bump = Except.ok (preds, mems) ∧
      ∀ i : ℕ, ∀ hi : i < [((0 : ℝ), (0 : ℝ))].length,
        (mems.getD i 0 = 0 ↔
          ∀ p ∈ [((0 : ℝ), (0 : ℝ))],
            ¬ euclDist p ([((0 : ℝ), (0 : ℝ))].get ⟨i, hi⟩) < 1) :=
  C3_membership_zero_iff_no_neighbor [(0, 0)] [3] [(0, 0)] 1 (by simp)
    (by norm_num)

/-- C4: for every radius `r > 0` and every non-negative distance `d`, the
default bump kernel satisfies `w(d) = e * exp(-1 / (1 - (d/r)^2))` for
`d < r` and `w(d) = 0` for `d >= r`; in particular `bump r 0 = 1` (exactly,
in the real-number model) and `bump r d = 0` for all `d >= r`. -/
theorem C4_bump_formula (r d : ℝ) (hr : 0 < r) (hd : 0 ≤ d) :
    (d < r → bump r d = Real.exp 1 * Real.exp (-1 / (1 - (d / r) ^ 2))) ∧
    (r ≤ d → bump r d = 0) ∧
    bump r 0 = 1 := by
  refine ⟨?_, fun h => bump_eq_zero_of_le r d h, ?_⟩
  · intro h
    unfold bump
    rw [if_pos h]
    have h2 : (1 / r) ^ 2 * d ^ 2 = (d / r) ^ 2 := by ring
    rw [h2]
  · unfold bump
    rw [if_pos hr]
    norm_num
    rw [← Real.exp_add]
    simp

/-- C4 witness: instantiation at `r = 1`, `d = 2`. -/
theorem C4_bump_formula_witness :
    (2 < (1 : ℝ) →
        bump 1 2 = Real.exp 1 * Real.exp (-1 / (1 - ((2 : ℝ) / 1) ^ 2))) ∧
    ((1 : ℝ) ≤ 2 → bump 1 2 = 0) ∧
    bump 1 0 = 1 :=
  C4_bump_formula 1 2 (by norm_num) (by norm_num)

/-- C6: `clusterpolate` called with an empty sequence of targets (and any
well-formed points and values) does not fail: it returns two empty arrays. -/
theorem C6_empty_targets (points : List (ℝ × ℝ)) (values : List ℝ)
    (radius : ℝ) (kernel_factory : ℝ → ℝ → ℝ)
    (h : points.length = values.length) :
    clusterpolate points values [] radius kernel_factory =
      Except.ok ([], []) := by
  rw [clusterpolate_ok points values [] radius kernel_factory h]
  simp

/-- C6 witness: one point, one value, no targets. -/
theorem C6_empty_targets_witness :
    clusterpolate [((0 : ℝ), (0 : ℝ))] [(3 : ℝ)] [] 1 bump =
      Except.ok ([], []) :=
  C6_empty_targets [(0, 0)] [3] 1 bump (by simp)

/-- C7: `clusterpolate` fails with the `ValueError` message whenever the
numbers of points and values differ, returning the error instead of any
output. -/
theorem C7_length_mismatch_error (points : List (ℝ × ℝ)) (values : List ℝ)
    (targets : List (ℝ × ℝ)) (radius : ℝ) (kernel_factory : ℝ → ℝ → ℝ)
    (h : points.length ≠ values.length) :
    clusterpolate points values targets radius kernel_factory =
      Except.error "The numbers of points and values must match." := by
  unfold clusterpolate
  rw [if_pos h]

/-- C7 witness: one point, no values. -/
theorem C7_length_mismatch_error_witness :
    clusterpolate [((0 : ℝ), (0 : ℝ))] [] [((1 : ℝ), (1 : ℝ))] 1 bump =
      Except.error "The numbers of points and values must match." :=
  C7_length_mismatch_error [(0, 0)] [] [(1, 1)] 1 bump (by simp)

/-- Reduction of `Except.bind` on a success value. -/
theorem except_ok_bind {ε α β : Type} (a : α) (f : α → Except ε β) :
    (Except.ok a : Except ε α).bind f = f a := rfl

/-- C5 (divergence witness): at the repository's own test input
(`test_image`: points `[(0,0),(1,0),(1.5,0)]`, values `[1,2,3]`,
size `(3,2)`, area `((0,0.5),(2,-0.5))`), `image` succeeds and returns the
targets as a flat array of the 6 grid points — a `(6, 2)` array, whose
leading dimension is 6, not 3 — while predictions and memberships are `3 x 2`
grids and the PIL image is 2 pixels wide and 3 pixels high.  The claim
(and the repository's test) states `targets.shape == (3, 2, 2)`; the code
actually produces shape `(6, 2)`. -/
theorem C5_image_shapes_at_test_input :
    ∃ res : ImageResult,
      image [(0, 0), (1, 0), (1.5, 0)] [1, 2, 3] (3, 2) ((0, 0.5), (2, -0.5))
          1 = Except.ok res ∧
      res.targets =
        [(0, 0.5), (1, 0.5), (2, 0.5), (0, -0.5), (1, -0.5), (2, -0.5)] ∧
      res.targets.length = 6 ∧ ¬ res.targets.length = 3 ∧
      res.predictions.length = 3 ∧ (∀ row ∈ res.predictions, row.length = 2) ∧
      res.memberships.length = 3 ∧ (∀ row ∈ res.memberships, row.length = 2) ∧
      res.imageWidth = 2 ∧ res.imageHeight = 3 := by
  have hx : linspace 0 2 3 = [0, 1, 2] := by
    unfold linspace
    norm_num [List.range_succ]
  have hy : linspace 0.5 (-0.5) 2 = [0.5, -0.5] := by
    unfold linspace
    norm_num [List.range_succ]
  have htg : gridTargets (3, 2) ((0, 0.5), (2, -0.5)) =
      [(0, 0.5), (1, 0.5), (2, 0.5), (0, -0.5), (1, -0.5), (2, -0.5)] := by
    unfold gridTargets
    simp only
    rw [hx, hy]
    simp
  have hok := clusterpolate_ok [((0 : ℝ), (0 : ℝ)), (1, 0), (1.5, 0)]
    [(1 : ℝ), 2, 3] (gridTargets (3, 2) ((0, 0.5), (2, -0.5))) 1 bump
    (by simp)
  unfold image
  rw [htg] at hok ⊢
  rw [hok, except_ok_bind]
  rw [if_pos (by constructor <;> simp)]
  rw [if_neg (by simp)]
  refine ⟨_, rfl, rfl, by simp, by simp, ?_, ?_, ?_, ?_, rfl, rfl⟩
  · simp [reshape2]
  · intro row hrow
    simp only [List.mem_map] at hrow
    obtain ⟨row0, hrow0, rfl⟩ := hrow
    simp only [reshape2, List.mem_map, List.mem_range] at hrow0
    obtain ⟨r, _, rfl⟩ := hrow0
    simp
  · simp [reshape2]
  · intro row hrow
    simp only [reshape2, List.mem_map, List.mem_range] at hrow
    obtain ⟨r, _, rfl⟩ := hrow
    simp

end Clusterpolate

namespace Heatmap

/-- Mapping the positions of a list through a default-read recovers the
list. -/
theorem range_map_getD (l : List ℚ) :
    (List.range l.length).map (fun i => l.getD i 0) = l := by
  induction l with
  | nil => rfl
  | cons a t ih =>
      rw [List.length_cons, List.range_succ_eq_map, List.map_cons,
        List.map_map]
      simp only [List.getD_cons_zero, Function.comp_def, Nat.succ_eq_add_one,
        List.getD_cons_succ]
      rw [ih]

/-- Reading one component of an interpolated tuple. -/
theorem interpolate_getD (t1 t2 : List ℚ) (x : ℚ) (j : ℕ)
    (hj : j < t1.length) :
    (interpolate t1 t2 x).getD j 0 =
      x * t2.getD j 0 + (1 - x) * t1.getD j 0 := by
  unfold interpolate
  rw [List.getD_eq_getElem _ 0 (by simpa using hj)]
  rw [List.getElem_map]
  rw [List.getElem_range]

/-- Interpolating with parameter `1` between equal-arity tuples returns the
second tuple unchanged. -/
theorem interpolate_one (t1 t2 : List ℚ) (h : t1.length = t2.length) :
    interpolate t1 t2 1 = t2 := by
  unfold interpolate
  rw [h]
  have heq : ∀ i ∈ List.range t2.length,
      (1 : ℚ) * t2.getD i 0 + (1 - 1) * t1.getD i 0 = t2.getD i 0 := by
    intro i _
    ring
  rw [List.map_congr_left heq, range_map_getD]

/-- The scanning loop returns the last stop's color whenever the query value
is at least the last key (with strictly increasing keys and uniform color
arity). -/
theorem colorizeGo_last (l : List (ℚ × List ℚ)) :
    ∀ (prev : ℚ × List ℚ) (v : ℚ),
    List.Pairwise (fun a b => a.1 < b.1) (prev :: l) →
    (∀ a ∈ prev :: l, ∀ b ∈ prev :: l, a.2.length = b.2.length) →
    ((prev :: l).getLast (by simp)).1 ≤ v →
    colorizeGo v prev l = ((prev :: l).getLast (by simp)).2 := by
  induction l with
  | nil =>
      intro prev v _ _ _
      rfl
  | cons s rest ih =>
      intro prev v hpw harity hlast
      rw [List.getLast_cons (by simp : s :: rest ≠ [])] at hlast ⊢
      simp only [colorizeGo]
      by_cases hv : v ≤ s.1
      · rw [if_pos hv]
        cases rest with
        | nil =>
            have hs : ((s :: ([] : List (ℚ × List ℚ))).getLast (by simp)) =
                s := rfl
            rw [hs] at hlast ⊢
            have hv2 : v = s.1 := le_antisymm hv hlast
            have hps : prev.1 < s.1 :=
              (List.pairwise_cons.mp hpw).1 s (by simp)
            have hx : (v - prev.1) / (s.1 - prev.1) = 1 := by
              rw [hv2]
              have hne : s.1 - prev.1 ≠ 0 := by
                intro habs
                apply absurd hps
                simp only [not_lt]
                linarith
              field_simp
            rw [hx]
            exact interpolate_one prev.2 s.2
              (harity prev (by simp) s (by simp))
        | cons s2 rest2 =>
            exfalso
            have hpw2 := (List.pairwise_cons.mp hpw).2
            have hmem : ((s :: s2 :: rest2).getLast (by simp)) ∈
                s2 :: rest2 := by
              rw [List.getLast_cons (by simp : s2 :: rest2 ≠ [])]
              exact List.getLast_mem _
            have hlt := (List.pairwise_cons.mp hpw2).1 _ hmem
            rw [List.getLast_cons (by simp : s2 :: rest2 ≠ [])] at hlast hlt
            linarith
      · rw [if_neg hv]
        exact ih s v (List.pairwise_cons.mp hpw).2
          (fun a ha b hb =>
            harity a (List.mem_cons_of_mem prev ha)
              b (List.mem_cons_of_mem prev hb))
          hlast

/-- The scanning loop interpolates between the bracketing pair of stops
whenever the query value lies in the half-open bracket. -/
theorem colorizeGo_interior (pre : List (ℚ × List ℚ)) :
    ∀ (prev lo hi : ℚ × List ℚ) (post : List (ℚ × List ℚ)) (v : ℚ),
    List.Pairwise (fun a b => a.1 < b.1) (prev :: (pre ++ lo :: hi :: post)) →
    lo.1 < v → v ≤ hi.1 →
    colorizeGo v prev (pre ++ lo :: hi :: post) =
      interpolate lo.2 hi.2 ((v - lo.1) / (hi.1 - lo.1)) := by
  induction pre with
  | nil =>
      intro prev lo hi post v _ hlo hhi
      simp only [List.nil_append, colorizeGo]
      rw [if_neg (not_le.mpr hlo), if_pos hhi]
  | cons q pre2 ih =>
      intro prev lo hi post v hpw hlo hhi
      simp only [List.cons_append, colorizeGo]
      have hq : q.1 < lo.1 := by
        have hpw2 := (List.pairwise_cons.mp hpw).2
        exact (List.pairwise_cons.mp hpw2).1 lo (by simp)
      rw [if_neg (not_le.mpr (lt_trans hq hlo))]
      exact ih q lo hi post v (List.pairwise_cons.mp hpw).2 hlo hhi

/-- C8: for every non-empty stop map (modelled by its sorted association
list, with strictly increasing keys and uniform color arity) the gradient
function clamps — inputs at most the smallest key return the first stop's
color unchanged and inputs at least the largest key return the last stop's
color unchanged — and for inputs strictly between two adjacent keys it
linearly interpolates each component as `x * hi[i] + (1 - x) * lo[i]` with
`x = (v - lo_key) / (hi_key - lo_key)`; moreover, for the example stops
`{0.0: (255,0,0), 0.5: (0,255,0), 1.0: (0,0,255)}`, the gradient maps `-1`
to `(255,0,0)`, `2` to `(0,0,255)`, and `0.25` to `(127.5, 127.5, 0.0)`. -/
theorem C8_gradient_clamps_and_interpolates :
    (∀ (s0 : ℚ × List ℚ) (stops : List (ℚ × List ℚ)) (v : ℚ),
      List.Pairwise (fun a b => a.1 < b.1) (s0 :: stops) →
      (∀ a ∈ s0 :: stops, ∀ b ∈ s0 :: stops, a.2.length = b.2.length) →
      (v ≤ s0.1 → colorize (s0 :: stops) v = s0.2) ∧
      (((s0 :: stops).getLast (by simp)).1 ≤ v →
        colorize (s0 :: stops) v = ((s0 :: stops).getLast (by simp)).2) ∧
      (∀ (pre post : List (ℚ × List ℚ)) (lo hi : ℚ × List ℚ),
        s0 :: stops = pre ++ lo :: hi :: post →
        lo.1 < v → v < hi.1 →
        colorize (s0 :: stops) v =
          interpolate lo.2 hi.2 ((v - lo.1) / (hi.1 - lo.1)) ∧
        ∀ j : ℕ, j < lo.2.length →
          (colorize (s0 :: stops) v).getD j 0 =
            ((v - lo.1) / (hi.1 - lo.1)) * hi.2.getD j 0 +
              (1 - (v - lo.1) / (hi.1 - lo.1)) * lo.2.getD j 0)) ∧
    gradient exampleStops = Except.ok (colorize exampleStops) ∧
    colorize exampleStops (-1) = [255, 0, 0] ∧
    colorize exampleStops 2 = [0, 0, 255] ∧
    colorize exampleStops (1 / 4) = [255 / 2, 255 / 2, 0] := by
  refine ⟨?_, by rfl,
    by norm_num [colorize, colorizeGo, interpolate, exampleStops,
      List.range_succ],
    by norm_num [colorize, colorizeGo, interpolate, exampleStops,
      List.range_succ],
    by norm_num [colorize, colorizeGo, interpolate, exampleStops,
      List.range_succ]⟩
  intro s0 stops v hpw harity
  refine ⟨?_, ?_, ?_⟩
  · intro hv
    simp only [colorize]
    rw [if_pos hv]
  · intro hlast
    simp only [colorize]
    by_cases hv : v ≤ s0.1
    · rw [if_pos hv]
      cases stops with
      | nil => rfl
      | cons s2 rest2 =>
          exfalso
          have hmem : ((s0 :: s2 :: rest2).getLast (by simp)) ∈
              s2 :: rest2 := by
            rw [List.getLast_cons (by simp : s2 :: rest2 ≠ [])]
            exact List.getLast_mem _
          have hlt := (List.pairwise_cons.mp hpw).1 _ hmem
          rw [List.getLast_cons (by simp : s2 :: rest2 ≠ [])] at hlast hlt
          linarith
    · rw [if_neg hv]
      exact colorizeGo_last stops s0 v hpw harity hlast
  · intro pre post lo hi hdecomp hlo hhi
    have hmain : colorize (s0 :: stops) v =
        interpolate lo.2 hi.2 ((v - lo.1) / (hi.1 - lo.1)) := by
      cases pre with
      | nil =>
          have hs0 : s0 = lo := by
            rw [List.nil_append] at hdecomp
            exact (List.cons_eq_cons.mp hdecomp).1
          have hst : stops = hi :: post := by
            rw [List.nil_append] at hdecomp
            exact (List.cons_eq_cons.mp hdecomp).2
          subst hs0
          subst hst
          simp only [colorize, colorizeGo]
          rw [if_neg (not_le.mpr hlo), if_pos (le_of_lt hhi)]
      | cons q pre2 =>
          have hs0 : s0 = q := by
            rw [List.cons_append] at hdecomp
            exact (List.cons_eq_cons.mp hdecomp).1
          have hst : stops = pre2 ++ lo :: hi :: post := by
            rw [List.cons_append] at hdecomp
            exact (List.cons_eq_cons.mp hdecomp).2
          subst hs0
          subst hst
          simp only [colorize]
          have hq : s0.1 < lo.1 :=
            (List.pairwise_cons.mp hpw).1 lo (by simp)
          rw [if_neg (not_le.mpr (lt_trans hq hlo))]
          exact colorizeGo_interior pre2 s0 lo hi post v hpw hlo
            (le_of_lt hhi)
    refine ⟨hmain, ?_⟩
    intro j hj
    rw [hmain]
    exact interpolate_getD lo.2 hi.2 _ j hj

/-- C8 witness: the general clamping and interpolation statement
instantiated at the example stops and `v = 1/4`. -/
theorem C8_gradient_clamps_and_interpolates_witness :
    ((1 : ℚ) / 4 ≤ 0 →
      colorize (((0 : ℚ), [(255 : ℚ), 0, 0]) ::
        [((1 : ℚ) / 2, [(0 : ℚ), 255, 0]), (1, [0, 0, 255])]) (1 / 4) =
        [255, 0, 0]) ∧
    (((((0 : ℚ), [(255 : ℚ), 0, 0]) ::
        [((1 : ℚ) / 2, [(0 : ℚ), 255, 0]), (1, [0, 0, 255])]).getLast
          (by simp)).1 ≤ 1 / 4 →
      colorize (((0 : ℚ), [(255 : ℚ), 0, 0]) ::
        [((1 : ℚ) / 2, [(0 : ℚ), 255, 0]), (1, [0, 0, 255])]) (1 / 4) =
        ((((0 : ℚ), [(255 : ℚ), 0, 0]) ::
          [((1 : ℚ) / 2, [(0 : ℚ), 255, 0]), (1, [0, 0, 255])]).getLast
            (by simp)).2) ∧
    (∀ (pre post : List (ℚ × List ℚ)) (lo hi : ℚ × List ℚ),
      ((0 : ℚ), [(255 : ℚ), 0, 0]) ::
          [((1 : ℚ) / 2, [(0 : ℚ), 255, 0]), (1, [0, 0, 255])] =
        pre ++ lo :: hi :: post →
      lo.1 < 1 / 4 → (1 : ℚ) / 4 < hi.1 →
      colorize (((0 : ℚ), [(255 : ℚ), 0, 0]) ::
          [((1 : ℚ) / 2, [(0 : ℚ), 255, 0]), (1, [0, 0, 255])]) (1 / 4) =
        interpolate lo.2 hi.2 ((1 / 4 - lo.1) / (hi.1 - lo.1)) ∧
      ∀ j : ℕ, j < lo.2.length →
        (colorize (((0 : ℚ), [(255 : ℚ), 0, 0]) ::
            [((1 : ℚ) / 2, [(0 : ℚ), 255, 0]), (1, [0, 0, 255])])
              (1 / 4)).getD j 0 =
          ((1 / 4 - lo.1) / (hi.1 - lo.1)) * hi.2.getD j 0 +
            (1 - (1 / 4 - lo.1) / (hi.1 - lo.1)) * lo.2.getD j 0) :=
  C8_gradient_clamps_and_interpolates.1 (0, [255, 0, 0])
    [(1 / 2, [0, 255, 0]), (1, [0, 0, 255])] (1 / 4)
    (by norm_num [List.pairwise_cons]) (by norm_num)

/-- C9: heatmap accumulation is additive.  For two input points at the same
location with intensities `a` and `b`, the accumulated buffer value at
every pixel equals `a + b` times the unit-intensity stamp contribution at
that pixel (in particular at their own pixel), which is the sum — not the
overwrite or the maximum — of the two points' individual contributions, and
is strictly greater than either contribution alone wherever the stamp
contributes positively. -/
theorem C9_heatmap_additive (stampOf : ℤ → ℤ → ImgF)
    (area : (ℝ × ℝ) × (ℝ × ℝ)) (size : ℕ × ℕ) (radius di px py a b : ℝ)
    (ha : 0 < a) (hb : 0 < b) (x y : ℤ) :
    (heatmap stampOf [(px, py, some a), (px, py, some b)] area size radius
        di).pix x y =
      (a + b) *
        (heatmap stampOf [(px, py, some 1)] area size radius di).pix x y ∧
    (heatmap stampOf [(px, py, some a)] area size radius di).pix x y =
      a * (heatmap stampOf [(px, py, some 1)] area size radius di).pix x y ∧
    (heatmap stampOf [(px, py, some b)] area size radius di).pix x y =
      b * (heatmap stampOf [(px, py, some 1)] area size radius di).pix x y ∧
    (0 < (heatmap stampOf [(px, py, some 1)] area size radius di).pix x y →
      (heatmap stampOf [(px, py, some a)] area size radius di).pix x y <
        (heatmap stampOf [(px, py, some a), (px, py, some b)] area size
          radius di).pix x y ∧
      (heatmap stampOf [(px, py, some b)] area size radius di).pix x y <
        (heatmap stampOf [(px, py, some a), (px, py, some b)] area size
          radius di).pix x y) := by
  unfold heatmap add_image
  simp only [List.foldl_cons, List.foldl_nil, Option.getD_some]
  split_ifs with h
  · refine ⟨by ring, by ring, by ring, ?_⟩
    intro hpos
    have hk : 0 < (stampOf
        (truncToward0 (radius * ((size.1 : ℝ) / (area.2.1 - area.1.1))))
        (truncToward0 (radius * ((size.2 : ℝ) / (area.2.2 - area.1.2))))).pix
        (x - truncToward0 ((px - area.1.1) *
            ((size.1 : ℝ) / (area.2.1 - area.1.1)) -
          (truncToward0 (radius * ((size.1 : ℝ) / (area.2.1 - area.1.1))) :
            ℝ) - 1))
        (y - truncToward0 ((py - area.1.2) *
            ((size.2 : ℝ) / (area.2.2 - area.1.2)) -
          (truncToward0 (radius * ((size.2 : ℝ) / (area.2.2 - area.1.2))) :
            ℝ) - 1)) := by linarith
    constructor <;> nlinarith
  · refine ⟨by ring, by ring, by ring, ?_⟩
    intro hpos
    exact absurd hpos (lt_irrefl 0)

/-- C9 witness: a concrete constant stamp, unit area, two coincident points
with intensities 1 and 2. -/
theorem C9_heatmap_additive_witness :
    (heatmap (fun _ _ => ⟨1, 1, fun _ _ => 1⟩)
        [((0 : ℝ), (0 : ℝ), some (1 : ℝ)), (0, 0, some 2)]
        ((0, 0), (1, 1)) (1, 1) 0 0).pix 0 0 =
      ((1 : ℝ) + 2) *
        (heatmap (fun _ _ => ⟨1, 1, fun _ _ => 1⟩)
          [((0 : ℝ), (0 : ℝ), some (1 : ℝ))] ((0, 0), (1, 1)) (1, 1) 0
          0).pix 0 0 ∧
    (heatmap (fun _ _ => ⟨1, 1, fun _ _ => 1⟩)
        [((0 : ℝ), (0 : ℝ), some (1 : ℝ))] ((0, 0), (1, 1)) (1, 1) 0
        0).pix 0 0 =
      1 * (heatmap (fun _ _ => ⟨1, 1, fun _ _ => 1⟩)
          [((0 : ℝ), (0 : ℝ), some (1 : ℝ))] ((0, 0), (1, 1)) (1, 1) 0
          0).pix 0 0 ∧
    (heatmap (fun _ _ => ⟨1, 1, fun _ _ => 1⟩)
        [((0 : ℝ), (0 : ℝ), some (2 : ℝ))] ((0, 0), (1, 1)) (1, 1) 0
        0).pix 0 0 =
      2 * (heatmap (fun _ _ => ⟨1, 1, fun _ _ => 1⟩)
          [((0 : ℝ), (0 : ℝ), some (1 : ℝ))] ((0, 0), (1, 1)) (1, 1) 0
          0).pix 0 0 ∧
    (0 < (heatmap (fun _ _ => ⟨1, 1, fun _ _ => 1⟩)
        [((0 : ℝ), (0 : ℝ), some (1 : ℝ))] ((0, 0), (1, 1)) (1, 1) 0
        0).pix 0 0 →
      (heatmap (fun _ _ => ⟨1, 1, fun _ _ => 1⟩)
          [((0 : ℝ), (0 : ℝ), some (1 : ℝ))] ((0, 0), (1, 1)) (1, 1) 0
          0).pix 0 0 <
        (heatmap (fun _ _ => ⟨1, 1, fun _ _ => 1⟩)
          [((0 : ℝ), (0 : ℝ), some (1 : ℝ)), (0, 0, some 2)]
          ((0, 0), (1, 1)) (1, 1) 0 0).pix 0 0 ∧
      (heatmap (fun _ _ => ⟨1, 1, fun _ _ => 1⟩)
          [((0 : ℝ), (0 : ℝ), some (2 : ℝ))] ((0, 0), (1, 1)) (1, 1) 0
          0).pix 0 0 <
        (heatmap (fun _ _ => ⟨1, 1, fun _ _ => 1⟩)
          [((0 : ℝ), (0 : ℝ), some (1 : ℝ)), (0, 0, some 2)]
          ((0, 0), (1, 1)) (1, 1) 0 0).pix 0 0) :=
  C9_heatmap_additive (fun _ _ => ⟨1, 1, fun _ _ => 1⟩) ((0, 0), (1, 1))
    (1, 1) 0 0 0 0 1 2 (by norm_num) (by norm_num) 0 0

/-- C10: `bounding_box` applied to an empty point sequence does not raise:
the loop body never runs and the inverted sentinel box
`((+inf, +inf), (-inf, -inf))` is returned. -/
theorem C10_bounding_box_empty :
    bounding_box [] = ((⊤, ⊤), (⊥, ⊥)) := rfl

end Heatmap
